import Mathlib

/-!
Quantity take-off and element metadata extraction.

A shallow embedding of the two computational kernels of the viewer front end:

* `QTOExtension.extractData` (`wwwroot/QTOExtension.js`): the fold that groups
  bulk property records into buckets keyed by `family|type`;
* the fragment loop of `setupMetadata` (`wwwroot/main.js`): material label
  resolution, geometry buffer resolution, the indexed and non-indexed face
  loops, and `applyMatrix`.

The volume arithmetic of `extractData` is a parameter (`QTO.Arith`): what is
proved for every arithmetic holds for the doubles of the host, and
`QTO.exactArith` is the arithmetic without rounding.  In the fragment loop
numbers are exact rationals, and a value that is `undefined` or `NaN` where a
number is expected is `none`; arithmetic on it stays `none`.
Display names and display values of properties are strings.
-/

namespace QTO

/-! ## Property records -/

/-- One entry of `result.properties`: a display name and a display value. -/
structure Property where
  displayName : String
  displayValue : String
  deriving DecidableEq, Repr

/-- One entry of the `results` array handed to the bulk property callback. -/
structure Result where
  dbId : Nat
  properties : List Property
  deriving DecidableEq, Repr

/-- The object stored under a key of `data`: `{ dbIds: [], volume: 0 }`, over
the numbers `N`. -/
structure Bucket (N : Type) where
  dbIds : List Nat
  volume : N
  deriving DecidableEq, Repr

/-- The object `data`: own string keys in insertion order.  Every key written by
`extractData` contains the character `|`, so no key is an array index (which
would be reordered) and none collides with a member of `Object.prototype`. -/
abbrev Data (N : Type) := List (String × Bucket N)

/-- The read `data[key]`: the bucket stored under `key`, if any. -/
def Data.get {N : Type} : Data N → String → Option (Bucket N)
  | [], _ => none
  | (k, b) :: rest, key => if k = key then some b else Data.get rest key

/-- The write `data[key] = b`: overwrite in place, or append a new key. -/
def Data.set {N : Type} : Data N → String → Bucket N → Data N
  | [], key, b => [(key, b)]
  | (k, b0) :: rest, key, b =>
    if k = key then (k, b) :: rest else (k, b0) :: Data.set rest key b

/-- An in-place update `data[key].field = ...` of an existing bucket. -/
def Data.modify {N : Type} : Data N → String → (Bucket N → Bucket N) → Data N
  | [], _, _ => []
  | (k, b0) :: rest, key, f =>
    if k = key then (k, f b0) :: rest else (k, b0) :: Data.modify rest key f

/-! ## Numbers

`extractData` uses four things of the host's number arithmetic: the literal
`0`, the operator `+`, the truth value of a number (the left operand of `||`)
and the global `parseFloat`.  They are gathered in `Arith`, so that the loop
is written once for every arithmetic, the IEEE doubles of the host included.
`exactArith` is the arithmetic without rounding. -/

/-- The number arithmetic of the host as far as `extractData` uses it.
`isNaN` tells the value `NaN`; `truthy` is the truth value of a number (false
for `NaN` and for zero); `parseFloat none` is `parseFloat(undefined)`.  The two
zeros count as one number. -/
structure Arith where
  Num : Type
  zero : Num
  add : Num → Num → Num
  isNaN : Num → Bool
  truthy : Num → Bool
  parseFloat : Option String → Num
  nan_falsy : ∀ x, isNaN x = true → truthy x = false
  parseFloat_undefined : isNaN (parseFloat none) = true
  add_zero : ∀ x, add x zero = x

/-- The numbers of exact arithmetic: `NaN`, the rationals, and the two infinities. -/
inductive ExactNum where
  | nan : ExactNum
  | fin (q : ℚ) : ExactNum
  | posInf : ExactNum
  | negInf : ExactNum
  deriving DecidableEq, Repr

/-- The operator `+` without rounding: `NaN` is absorbing, an infinity absorbs
every finite number, and the sum of opposite infinities is `NaN`. -/
def ExactNum.add : ExactNum → ExactNum → ExactNum
  | .nan, _ => .nan
  | _, .nan => .nan
  | .fin a, .fin b => .fin (a + b)
  | .fin _, .posInf => .posInf
  | .fin _, .negInf => .negInf
  | .posInf, .fin _ => .posInf
  | .negInf, .fin _ => .negInf
  | .posInf, .posInf => .posInf
  | .negInf, .negInf => .negInf
  | .posInf, .negInf => .nan
  | .negInf, .posInf => .nan

/-- The value `NaN`. -/
def ExactNum.isNaN : ExactNum → Bool
  | .nan => true
  | _ => false

/-- The truth value of a number: false for `NaN` and for zero. -/
def ExactNum.truthy : ExactNum → Bool
  | .nan => false
  | .fin q => decide (q ≠ 0)
  | .posInf => true
  | .negInf => true

/-! ## `parseFloat` -/

/-- The characters `parseFloat` skips at the start of its argument
(white space and line terminators). -/
def isStrWhiteSpaceChar (c : Char) : Bool :=
  c = '\t' || c = '\n' || c = '\x0b' || c = '\x0c' || c = '\r' || c = ' ' ||
  c = '\u00a0' || c = '\u1680' || (0x2000 ≤ c.toNat && c.toNat ≤ 0x200a) ||
  c = '\u2028' || c = '\u2029' || c = '\u202f' || c = '\u205f' || c = '\u3000' ||
  c = '\ufeff'

/-- Split off the longest run of decimal digits at the head of a character list. -/
def takeDigits : List Char → List Char × List Char
  | [] => ([], [])
  | c :: cs =>
    if c.isDigit then ((takeDigits cs).1.cons c, (takeDigits cs).2) else ([], c :: cs)

/-- The number denoted by a run of decimal digits. -/
def digitsValue (ds : List Char) : Nat :=
  ds.foldl (fun n c => 10 * n + (c.toNat - 48)) 0

/-- The exponent part `e±ddd` at the head of a character list, or `0` when the
list does not start with a complete exponent part. -/
def exponentValue : List Char → Int
  | [] => 0
  | c :: cs =>
    if c = 'e' ∨ c = 'E' then
      match cs with
      | '-' :: ds => if (takeDigits ds).1 = [] then 0 else - (digitsValue (takeDigits ds).1 : Int)
      | '+' :: ds => if (takeDigits ds).1 = [] then 0 else (digitsValue (takeDigits ds).1 : Int)
      | ds => if (takeDigits ds).1 = [] then 0 else (digitsValue (takeDigits ds).1 : Int)
    else 0

/-- A signed decimal literal as read: sign, the digits of the integer and
fraction parts as one natural number, and the power of ten to scale it by. -/
structure Decimal where
  negative : Bool
  digits : Nat
  exponent : Int
  deriving DecidableEq, Repr

/-- The unsigned decimal literal at the head of a character list:
digits, an optional fraction, an optional exponent; `none` when there is no
digit before or after the point. -/
def parseUnsigned (negative : Bool) (cs : List Char) : Option Decimal :=
  let ip := (takeDigits cs).1
  let afterInt := (takeDigits cs).2
  let fp := match afterInt with
    | '.' :: r => (takeDigits r).1
    | _ => []
  let afterFrac := match afterInt with
    | '.' :: r => (takeDigits r).2
    | _ => afterInt
  if ip = [] ∧ fp = [] then none
  else some ⟨negative, digitsValue (ip ++ fp), exponentValue afterFrac - (fp.length : Int)⟩

/-- The sign read after the leading white space of a string (`true` for `-`),
and the characters after it. -/
def signedRest (s : String) : Bool × List Char :=
  match s.data.dropWhile isStrWhiteSpaceChar with
  | '-' :: cs => (true, cs)
  | '+' :: cs => (false, cs)
  | cs => (false, cs)

/-- The longest prefix of a string that is a signed decimal literal, after
leading white space; `none` when there is no such prefix. -/
def parseDecimal (s : String) : Option Decimal :=
  parseUnsigned (signedRest s).1 (signedRest s).2

/-- The rational number a decimal literal denotes. -/
def Decimal.value (d : Decimal) : ℚ :=
  let m : ℚ := if d.negative then - (d.digits : ℚ) else (d.digits : ℚ)
  if 0 ≤ d.exponent then m * (10 : ℚ) ^ d.exponent.toNat
  else m / (10 : ℚ) ^ (- d.exponent).toNat

/-- The global `parseFloat` on a string, without rounding: leading white space
is skipped and an optional sign is read; then the word `Infinity` gives the
infinity of that sign, and otherwise the longest prefix that is a decimal
literal gives its value, or `NaN` when there is none. -/
def parseFloat (s : String) : ExactNum :=
  if "Infinity".data.isPrefixOf (signedRest s).2 then
    (if (signedRest s).1 then .negInf else .posInf)
  else
    match parseDecimal s with
    | some d => .fin d.value
    | none => .nan

/-- The arithmetic without rounding.  `parseFloat(undefined)` is `NaN`. -/
def exactArith : Arith where
  Num := ExactNum
  zero := .fin 0
  add := ExactNum.add
  isNaN := ExactNum.isNaN
  truthy := ExactNum.truthy
  parseFloat := fun arg =>
    match arg with
    | some s => parseFloat s
    | none => .nan
  nan_falsy := by
    intro x hx
    cases x <;> simp_all [ExactNum.isNaN, ExactNum.truthy]
  parseFloat_undefined := rfl
  add_zero := by
    intro x
    cases x <;> simp [ExactNum.add]

/-! ## `extractData` -/

/-- The test of `find` for the family property:
`p.displayName === 'Family Name' || p.displayName === 'Family'`. -/
def isFamilyProp (p : Property) : Bool :=
  p.displayName = "Family Name" || p.displayName = "Family"

/-- The test of `find` for the type property:
`p.displayName === 'Type Name' || p.displayName === 'Type'`. -/
def isTypeProp (p : Property) : Bool :=
  p.displayName = "Type Name" || p.displayName = "Type"

/-- The test of `find` for the volume property: `p.displayName === 'Volume'`. -/
def isVolumeProp (p : Property) : Bool :=
  p.displayName = "Volume"

/-- The expression `prop?.displayValue || 'Unknown'`: the display value of the
property found, unless there is none or the value is the empty string. -/
def orUnknown : Option Property → String
  | none => "Unknown"
  | some p => if p.displayValue = "" then "Unknown" else p.displayValue

/-- The constant `familyName` of the loop body. -/
def familyName (result : Result) : String :=
  orUnknown (result.properties.find? isFamilyProp)

/-- The constant `typeName` of the loop body. -/
def typeName (result : Result) : String :=
  orUnknown (result.properties.find? isTypeProp)

/-- The expression `volumeProp?.displayValue`: `undefined` without a volume property. -/
def volumeArgument (result : Result) : Option String :=
  (result.properties.find? isVolumeProp).map Property.displayValue

/-- The constant `volumeValue` of the loop body:
`parseFloat(volumeProp?.displayValue) || 0`: the number parsed when it is
truthy, and `0` when it is `NaN` or zero. -/
def volumeValue (A : Arith) (result : Result) : A.Num :=
  if A.truthy (A.parseFloat (volumeArgument result)) then A.parseFloat (volumeArgument result)
  else A.zero

/-- The constant `key` of the loop body: the template `family|type`. -/
def key (result : Result) : String :=
  familyName result ++ "|" ++ typeName result

/-- One iteration of `for (const result of results)`. -/
def step (A : Arith) (data : Data A.Num) (result : Result) : Data A.Num :=
  let k := key result
  let data1 := if (data.get k).isNone then data.set k { dbIds := [], volume := A.zero } else data
  let data2 := data1.modify k (fun b => { b with dbIds := b.dbIds ++ [result.dbId] })
  data2.modify k (fun b => { b with volume := A.add b.volume (volumeValue A result) })

/-- The loop of `extractData` started from an arbitrary accumulator. -/
def extractFrom (A : Arith) (data : Data A.Num) (results : List Result) : Data A.Num :=
  results.foldl (step A) data

/-- The value `extractData` resolves with: the loop run from `data = {}`. -/
def extractData (A : Arith) (results : List Result) : Data A.Num :=
  extractFrom A [] results

/-! ## Notions used to state the properties of `extractData` -/

/-- The own keys of `data`, in insertion order. -/
def Data.keys {N : Type} (d : Data N) : List String := d.map Prod.fst

/-- The bucket a key holds before an iteration, read as the fresh bucket
`{ dbIds: [], volume: 0 }` when the key is not there yet. -/
def Data.getOrFresh (A : Arith) (d : Data A.Num) (k : String) : Bucket A.Num :=
  (d.get k).getD { dbIds := [], volume := A.zero }

/-- The records of a list that fall under the key `k`, in input order. -/
def recordsOf (k : String) (results : List Result) : List Result :=
  results.filter (fun r => key r = k)

/-- The volume values of a list of records added one after the other, in
list order, onto a starting value: `((v + v1) + v2) + ...`. -/
def accumulate (A : Arith) (v : A.Num) (results : List Result) : A.Num :=
  results.foldl (fun acc r => A.add acc (volumeValue A r)) v

/-- The two records of the worked example: both fall under `Wall|Basic`. -/
def exampleRecords : List Result :=
  [⟨1, [⟨"Family Name", "Wall"⟩, ⟨"Type Name", "Basic"⟩, ⟨"Volume", "2.5"⟩]⟩,
   ⟨2, [⟨"Family", "Wall"⟩, ⟨"Type", "Basic"⟩, ⟨"Volume", "1.5"⟩]⟩]

/-- A record that lists the short aliases before the long ones. -/
def aliasOrderRecord : Result :=
  ⟨7, [⟨"Family", "Door"⟩, ⟨"Family Name", "Wall"⟩, ⟨"Type", "Single"⟩, ⟨"Type Name", "Flush"⟩]⟩

/-- A record whose `Family Name` and `Type Name` come first but are empty. -/
def emptyValueRecord : Result :=
  ⟨8, [⟨"Family Name", ""⟩, ⟨"Family", "Door"⟩, ⟨"Type Name", ""⟩, ⟨"Type", "Single"⟩]⟩

/-- A record with none of the five queried properties. -/
def bareRecord : Result := ⟨5, [⟨"Comments", "n/a"⟩]⟩

/-- A record whose volume is present but is not a number. -/
def textVolumeRecord : Result :=
  ⟨6, [⟨"Family", "Wall"⟩, ⟨"Type", "Basic"⟩, ⟨"Volume", "n/a"⟩]⟩

/-- A record whose volume reads `Infinity`. -/
def infiniteVolumeRecord : Result :=
  ⟨9, [⟨"Family", "Wall"⟩, ⟨"Type", "Basic"⟩, ⟨"Volume", "Infinity"⟩]⟩

/-- Two records of a result list end up in one bucket: some key of the
resolved object holds the dbIds of both. -/
def sameBucket (A : Arith) (results : List Result) (r1 r2 : Result) : Prop :=
  ∃ k b, (extractData A results).get k = some b ∧ r1.dbId ∈ b.dbIds ∧ r2.dbId ∈ b.dbIds

/-- A record whose family contains the separator character. -/
def barFamilyRecord : Result := ⟨1, [⟨"Family", "A|B"⟩, ⟨"Type", "C"⟩]⟩

/-- A record whose type contains the separator character. -/
def barTypeRecord : Result := ⟨2, [⟨"Family", "A"⟩, ⟨"Type", "B|C"⟩]⟩

end QTO

namespace Metadata

open QTO (Property)

/-! ## Numbers, vectors and matrices -/

/-- The product of two numbers; `none` (an `undefined` or `NaN` operand) is absorbing. -/
def numMul : Option ℚ → Option ℚ → Option ℚ
  | some a, some b => some (a * b)
  | _, _ => none

/-- The sum of two numbers; `none` (an `undefined` or `NaN` operand) is absorbing. -/
def numAdd : Option ℚ → Option ℚ → Option ℚ
  | some a, some b => some (a + b)
  | _, _ => none

/-- The function `Math.round` on a rational: the nearest integer, halves going up. -/
def mathRound (q : ℚ) : Int :=
  Rat.floor (q + 1 / 2)

/-- The object `{ x, y, z }`. -/
structure Vec3 where
  x : Option ℚ
  y : Option ℚ
  z : Option ℚ
  deriving DecidableEq, Repr

/-- The object `renderProxy.matrixWorld`, with its array `elements`. -/
structure Matrix4 where
  elements : List ℚ
  deriving DecidableEq, Repr

/-- The helper `applyMatrix` of `setupMetadata`. -/
def applyMatrix (v : Vec3) (m : Matrix4) : Vec3 :=
  let x := numAdd (numAdd (numAdd (numMul v.x m.elements[0]?) (numMul v.y m.elements[4]?))
    (numMul v.z m.elements[8]?)) m.elements[12]?
  let y := numAdd (numAdd (numAdd (numMul v.x m.elements[1]?) (numMul v.y m.elements[5]?))
    (numMul v.z m.elements[9]?)) m.elements[13]?
  let z := numAdd (numAdd (numAdd (numMul v.x m.elements[2]?) (numMul v.y m.elements[6]?))
    (numMul v.z m.elements[10]?)) m.elements[14]?
  { x := x, y := y, z := z }

/-! ## Fragments -/

/-- The material of a fragment: its `name`, its numeric `id`, and the hex string
of its `color` when it has one. -/
structure Material where
  name : Option String
  id : Option Nat
  color : Option String
  deriving DecidableEq, Repr

/-- The geometry of a fragment.  `position` is `attributes.position.array`,
`index` is `index.array`; `vb`, `vbstride` and `ib` are the packed buffers.
The object `attributes` is always there, as in every buffer geometry of the host. -/
structure Geometry where
  position : Option (List ℚ)
  index : Option (List Nat)
  vb : Option (List ℚ)
  vbstride : Option Nat
  ib : Option (List Nat)
  deriving DecidableEq, Repr

/-- The object `renderProxy.mesh`. -/
structure Mesh where
  geometry : Option Geometry
  material : Option Material
  deriving DecidableEq, Repr

/-- What `getRenderProxy` returns for a fragment that has one. -/
structure RenderProxy where
  mesh : Option Mesh
  geometry : Option Geometry
  material : Option Material
  matrixWorld : Matrix4
  deriving DecidableEq, Repr

/-- The object `props` that `getProperties` resolved with. -/
structure Props where
  properties : Option (List Property)
  deriving DecidableEq, Repr

/-- One entry of `allGeometryData`. -/
structure Face where
  faceIndex : Int
  vertices : List Vec3
  material : String
  deriving DecidableEq, Repr

/-! ## Material resolution -/

/-- The method `startsWith` on strings. -/
def startsWith (s pre : String) : Bool :=
  pre.data.isPrefixOf s.data

/-- The method `includes` on strings, on character lists. -/
def includes : List Char → List Char → Bool
  | [], pat => pat.isPrefixOf []
  | c :: cs, pat => pat.isPrefixOf (c :: cs) || includes cs pat

/-- The test of `find` for the material property:
`p.displayName && p.displayName.toLowerCase().includes('material')`.
Lower-casing is done on the letters `A` to `Z`; no other character lower-cases
to a letter of `material` followed by the next one, so the test is the same. -/
def isMaterialProp (p : Property) : Bool :=
  p.displayName ≠ "" && includes (p.displayName.data.map Char.toLower) "material".data

/-- The test `!matName`: no name, or the empty name. -/
def noName (matName : Option String) : Bool :=
  matName = none || matName = some ""

/-- The initial value of `matName`: `material ? material.name : null`. -/
def materialName (material : Option Material) : Option String :=
  match material with
  | some m => m.name
  | none => none

/-- The test `!matName || matName.startsWith('Unnamed')`. -/
def isGeneric (matName : Option String) : Bool :=
  match matName with
  | none => true
  | some n => n = "" || startsWith n "Unnamed"

/-- The value of `props && props.properties`, when it is a property list. -/
def propertiesOf (props : Option Props) : Option (List Property) :=
  match props with
  | some ps => ps.properties
  | none => none

/-- The variable `matName` after the property fallback. -/
def resolveName (material : Option Material) (props : Option Props) : Option String :=
  let matName := materialName material
  if isGeneric matName then
    match propertiesOf props with
    | some properties =>
      match properties.find? isMaterialProp with
      | some materialProp => some materialProp.displayValue
      | none => matName
    | none => matName
  else matName

/-- The variable `materialInfo` of the fragment loop. -/
def materialInfo (material : Option Material) (props : Option Props) : String :=
  let matName0 := resolveName material props
  let matName : String := if noName matName0 then "Unnamed Material" else matName0.getD ""
  match material with
  | some m =>
    let matId : String := match m.id with
      | some n => if n = 0 then "(No ID)" else "(ID: " ++ toString n ++ ")"
      | none => "(No ID)"
    let info := matName ++ " " ++ matId
    match m.color with
    | some hex => info ++ " (Color: #" ++ hex ++ ")"
    | none => info
  | none => matName

/-! ## Geometry resolution -/

/-- The variables `positions`, `indices` and `stride` once resolved. -/
structure Resolved where
  positions : Option (List ℚ)
  indices : Option (List Nat)
  stride : Nat
  deriving DecidableEq, Repr

/-- The expression `geometry.vbstride || 3`. -/
def strideOr3 : Option Nat → Nat
  | some n => if n = 0 then 3 else n
  | none => 3

/-- The resolution of `positions`, `indices` and `stride` from a geometry. -/
def resolveGeometry (geometry : Geometry) : Resolved :=
  let positions := geometry.position
  let indices := geometry.index
  let stride := 3
  let usePacked : Bool := positions.isNone && geometry.vb.isSome
  let positions1 := if usePacked then geometry.vb else positions
  let stride1 := if usePacked then strideOr3 geometry.vbstride else stride
  let indices1 := if indices.isNone && geometry.ib.isSome then geometry.ib else indices
  { positions := positions1, indices := indices1, stride := stride1 }

/-! ## The face loops -/

/-- The loop `for (let i = start; i < len; i += step)` collecting one value
per iteration, run for at most `fuel` iterations. -/
def forLoop {α : Type} (len step : Nat) (body : Nat → α) : Nat → Nat → List α
  | 0, _ => []
  | fuel + 1, i => if i < len then body i :: forLoop len step body fuel (i + step) else []

/-- The read `positions[k]` where `k` is itself the result of a read that may
have been `undefined`. -/
def readAt (positions : List ℚ) (k : Option Nat) : Option ℚ :=
  k.bind (fun n => positions[n]?)

/-- The local vertex `{ x: positions[k], y: positions[k + 1], z: positions[k + 2] }`. -/
def vertexAt (positions : List ℚ) (k : Option Nat) : Vec3 :=
  { x := readAt positions k,
    y := readAt positions (k.map (fun n => n + 1)),
    z := readAt positions (k.map (fun n => n + 2)) }

/-- The body of the indexed loop at offset `i`: the face pushed to `allGeometryData`. -/
def indexedFace (positions : List ℚ) (stride : Nat) (indices : List Nat)
    (matrixWorld : Matrix4) (material : String) (totalFaces facesCount : ℚ) (i : Nat) : Face :=
  let a := indices[i]?
  let b := indices[i + 1]?
  let c := indices[i + 2]?
  let vA := applyMatrix (vertexAt positions (a.map (fun n => n * stride))) matrixWorld
  let vB := applyMatrix (vertexAt positions (b.map (fun n => n * stride))) matrixWorld
  let vC := applyMatrix (vertexAt positions (c.map (fun n => n * stride))) matrixWorld
  let faceIndex := mathRound (totalFaces - facesCount + (i : ℚ) / 3 + 1)
  { faceIndex := faceIndex, vertices := [vA, vB, vC], material := material }

/-- The indexed loop: the faces it pushes, in order.  The step is 3, so
`indices.length` iterations are always enough. -/
def indexedFaces (positions : List ℚ) (stride : Nat) (indices : List Nat)
    (matrixWorld : Matrix4) (material : String) (totalFaces facesCount : ℚ) : List Face :=
  forLoop indices.length 3
    (indexedFace positions stride indices matrixWorld material totalFaces facesCount)
    indices.length 0

/-- The body of the non-indexed loop at offset `i`. -/
def nonIndexedFace (positions : List ℚ) (stride : Nat)
    (matrixWorld : Matrix4) (material : String) (totalFaces facesCount : ℚ) (i : Nat) : Face :=
  let vA := applyMatrix (vertexAt positions (some i)) matrixWorld
  let vB := applyMatrix (vertexAt positions (some (i + stride))) matrixWorld
  let vC := applyMatrix (vertexAt positions (some (i + stride * 2))) matrixWorld
  let faceIndex := mathRound (totalFaces - facesCount + (i : ℚ) / ((stride : ℚ) * 3) + 1)
  { faceIndex := faceIndex, vertices := [vA, vB, vC], material := material }

/-- The non-indexed loop: the faces it pushes, in order.  The step is
`stride * 3`; `positions.length` iterations are enough whenever the stride is
not zero, which `resolveGeometry` guarantees. -/
def nonIndexedFaces (positions : List ℚ) (stride : Nat)
    (matrixWorld : Matrix4) (material : String) (totalFaces facesCount : ℚ) : List Face :=
  forLoop positions.length (stride * 3)
    (nonIndexedFace positions stride matrixWorld material totalFaces facesCount)
    positions.length 0

/-! ## The fragment loop -/

/-- The variables `totalFaces` and `allGeometryData`. -/
structure State where
  totalFaces : ℚ
  allGeometryData : List Face
  deriving DecidableEq, Repr

/-- The constant `geometry`: `renderProxy.geometry || mesh.geometry`, where
`mesh` is `renderProxy.mesh || renderProxy`. -/
def geometryOf (renderProxy : RenderProxy) : Option Geometry :=
  match renderProxy.geometry with
  | some g => some g
  | none =>
    match renderProxy.mesh with
    | some mesh => mesh.geometry
    | none => none

/-- The constant `material`: `renderProxy.material || mesh.material`. -/
def materialOf (renderProxy : RenderProxy) : Option Material :=
  match renderProxy.material with
  | some m => some m
  | none =>
    match renderProxy.mesh with
    | some mesh => mesh.material
    | none => none

/-- One iteration of `for (const fragId of frags)`, on the render proxy that
`getRenderProxy` returned for the fragment (`none` when it returned nothing). -/
def processFragment (props : Option Props) (st : State) (proxy : Option RenderProxy) : State :=
  match proxy with
  | none => st
  | some renderProxy =>
    let info := materialInfo (materialOf renderProxy) props
    match geometryOf renderProxy with
    | none => st
    | some geometry =>
      let r := resolveGeometry geometry
      match r.positions, r.indices with
      | some positions, some indices =>
        let facesCount : ℚ := (indices.length : ℚ) / 3
        let totalFaces := st.totalFaces + facesCount
        { totalFaces := totalFaces,
          allGeometryData := st.allGeometryData ++
            indexedFaces positions r.stride indices renderProxy.matrixWorld info
              totalFaces facesCount }
      | some positions, none =>
        let facesCount : ℚ := (positions.length : ℚ) / ((r.stride : ℚ) * 3)
        let totalFaces := st.totalFaces + facesCount
        { totalFaces := totalFaces,
          allGeometryData := st.allGeometryData ++
            nonIndexedFaces positions r.stride renderProxy.matrixWorld info
              totalFaces facesCount }
      | none, _ => st

/-- The fragment loop of `setupMetadata`: `totalFaces` and `geometryData` of
the metadata record, from the render proxies of the fragments in order. -/
def setupMetadata (props : Option Props) (frags : List (Option RenderProxy)) : State :=
  frags.foldl (processFragment props) { totalFaces := 0, allGeometryData := [] }

/-! ## Notions used to state the properties of the fragment loop -/

/-- The identity transform. -/
def identityMatrix : Matrix4 := ⟨[1, 0, 0, 0, 0, 1, 0, 0, 0, 0, 1, 0, 0, 0, 0, 1]⟩

/-- A geometry that has both an attribute-form position array and a packed
vertex buffer declaring the stride 6. -/
def bothFormsGeometry : Geometry :=
  { position := some [0, 0, 0], index := none, vb := some [1, 1, 1, 1, 1, 1],
    vbstride := some 6, ib := some [0] }

/-- A geometry with only a packed vertex buffer declaring the stride 6. -/
def packedGeometry : Geometry :=
  { position := none, index := none, vb := some [1, 1, 1, 1, 1, 1],
    vbstride := some 6, ib := none }

/-- A packed geometry that declares the stride 0. -/
def zeroStrideGeometry : Geometry :=
  { position := none, index := none, vb := some [0, 0, 0, 1, 0, 0, 0, 1, 0],
    vbstride := some 0, ib := none }

/-- A property whose display name contains `material`, letter case ignored. -/
def namesMaterial (p : Property) : Prop :=
  "material".data <:+: p.displayName.data.map Char.toLower

/-- A material whose name is missing, empty, or starts with `Unnamed`;
a fragment without a material object counts as one. -/
def genericName (material : Option Material) : Prop :=
  match material with
  | none => True
  | some m =>
    match m.name with
    | none => True
    | some n => n = "" ∨ "Unnamed".data <+: n.data

/-- The fragment material and property list of the worked example. -/
def unnamed42 : Material := { name := some "Unnamed_42", id := some 42, color := none }

/-- A fragment that reaches one of the two face loops: it has a render proxy,
a geometry, and position data. -/
def hasDecodableGeometry (proxy : Option RenderProxy) : Bool :=
  match proxy with
  | none => false
  | some renderProxy =>
    match geometryOf renderProxy with
    | none => false
    | some geometry => (resolveGeometry geometry).positions.isSome

/-- A fragment whose buffers hold whole triangles: the index array, when
there is one, has a length that is a multiple of 3; otherwise the position
array has a length that is a multiple of `stride * 3`.  A fragment that
reaches no face loop qualifies. -/
def wholeTriangles (proxy : Option RenderProxy) : Bool :=
  match proxy with
  | none => true
  | some renderProxy =>
    match geometryOf renderProxy with
    | none => true
    | some geometry =>
      match (resolveGeometry geometry).positions, (resolveGeometry geometry).indices with
      | some _, some indices => decide (3 ∣ indices.length)
      | some positions, none => decide ((resolveGeometry geometry).stride * 3 ∣ positions.length)
      | none, _ => true

/-- The face indices `1, 2, ..., n`. -/
def oneTo (n : Nat) : List Int :=
  (List.range n).map (fun (k : Nat) => (k : Int) + 1)

/-- The state of the fragment loop when the faces pushed so far are numbered
`1, 2, ..., n` and `totalFaces` is `n`. -/
def Numbered (st : State) : Prop :=
  st.totalFaces = (st.allGeometryData.length : ℚ)
  ∧ st.allGeometryData.map Face.faceIndex = oneTo st.allGeometryData.length

/-- A fragment in attribute form with two indexed triangles. -/
def indexedFragment : RenderProxy :=
  { mesh := none,
    geometry := some { position := some [0, 0, 0, 1, 0, 0, 0, 1, 0], index := some [0, 1, 2, 2, 1, 0],
                       vb := none, vbstride := none, ib := none },
    material := none, matrixWorld := identityMatrix }

/-- A fragment whose render proxy carries no geometry. -/
def emptyFragment : RenderProxy :=
  { mesh := none, geometry := none, material := none, matrixWorld := identityMatrix }

/-- A fragment in packed form, stride 4, one triangle, no indices. -/
def packedFragment : RenderProxy :=
  { mesh := none,
    geometry := some { position := none, index := none,
                       vb := some [0, 0, 0, 5, 1, 0, 0, 5, 0, 1, 0, 5], vbstride := some 4,
                       ib := none },
    material := none, matrixWorld := identityMatrix }

/-- A fragment list mixing both traversal modes with fragments that are skipped. -/
def exampleFragments : List (Option RenderProxy) :=
  [some indexedFragment, none, some emptyFragment, some packedFragment]

/-- A fragment whose index array has four entries: one triangle and one
leftover index. -/
def leftoverIndexFragment : RenderProxy :=
  { mesh := none,
    geometry := some { position := some [0, 0, 0, 1, 0, 0, 0, 1, 0], index := some [0, 1, 2, 0],
                       vb := none, vbstride := none, ib := none },
    material := none, matrixWorld := identityMatrix }

/-- A fragment with one whole indexed triangle. -/
def oneTriangleFragment : RenderProxy :=
  { mesh := none,
    geometry := some { position := some [0, 0, 0, 1, 0, 0, 0, 1, 0], index := some [0, 1, 2],
                       vb := none, vbstride := none, ib := none },
    material := none, matrixWorld := identityMatrix }

/-- The first three fields of block `k` of a position array with the given
stride, as a local vertex. -/
def blockVertex (positions : List ℚ) (stride k : Nat) : Vec3 :=
  { x := some (positions.getD (k * stride) 0),
    y := some (positions.getD (k * stride + 1) 0),
    z := some (positions.getD (k * stride + 2) 0) }

/-- The packed buffer of the worked example: four blocks of six fields, the
last three of each block being extra fields. -/
def stride6Positions : List ℚ :=
  [0, 0, 0, 7, 7, 7,  1, 1, 1, 7, 7, 7,  2, 0, 0, 7, 7, 7,  0, 2, 0, 7, 7, 7]

end Metadata

namespace QTO

/-! ## Facts about the accumulator object -/

theorem Data.get_set {N : Type} (d : Data N) (k k' : String) (b : Bucket N) :
    (d.set k b).get k' = if k = k' then some b else d.get k' := by
  induction d with
  | nil => simp [Data.set, Data.get]
  | cons p rest ih =>
    obtain ⟨k0, b0⟩ := p
    by_cases h0 : k0 = k
    · subst h0
      by_cases h1 : k0 = k' <;> simp [Data.set, Data.get, h1]
    · by_cases h1 : k0 = k'
      · subst h1
        have : ¬ k = k0 := fun h => h0 h.symm
        simp [Data.set, Data.get, h0, this]
      · simp [Data.set, Data.get, h0, h1, ih]

theorem Data.get_modify {N : Type} (d : Data N) (k k' : String) (f : Bucket N → Bucket N) :
    (d.modify k f).get k' = if k = k' then (d.get k').map f else d.get k' := by
  induction d with
  | nil => simp [Data.modify, Data.get]
  | cons p rest ih =>
    obtain ⟨k0, b0⟩ := p
    by_cases h0 : k0 = k
    · subst h0
      by_cases h1 : k0 = k' <;> simp [Data.modify, Data.get, h1]
    · by_cases h1 : k0 = k'
      · subst h1
        have : ¬ k = k0 := fun h => h0 h.symm
        simp [Data.modify, Data.get, h0, this]
      · simp [Data.modify, Data.get, h0, h1, ih]

theorem Data.keys_modify {N : Type} (d : Data N) (k : String) (f : Bucket N → Bucket N) :
    (d.modify k f).keys = d.keys := by
  induction d with
  | nil => rfl
  | cons p rest ih =>
    obtain ⟨k0, b0⟩ := p
    by_cases h0 : k0 = k
    · simp [Data.modify, Data.keys, h0]
    · have ih2 : List.map Prod.fst (Data.modify rest k f) = List.map Prod.fst rest := ih
      simp [Data.modify, Data.keys, h0, ih2]

theorem Data.mem_keys_iff {N : Type} (d : Data N) (k : String) :
    k ∈ d.keys ↔ (d.get k).isSome = true := by
  induction d with
  | nil => simp [Data.keys, Data.get]
  | cons p rest ih =>
    obtain ⟨k0, b0⟩ := p
    have ih2 : k ∈ List.map Prod.fst rest ↔ (Data.get rest k).isSome = true := ih
    by_cases h0 : k0 = k
    · simp [Data.keys, Data.get, h0]
    · have : ¬ k = k0 := fun h => h0 h.symm
      simp [Data.keys, Data.get, h0, this, ih2]

theorem Data.keys_set_of_get_none {N : Type} (d : Data N) (k : String) (b : Bucket N)
    (h : d.get k = none) : (d.set k b).keys = d.keys ++ [k] := by
  induction d with
  | nil => rfl
  | cons p rest ih =>
    obtain ⟨k0, b0⟩ := p
    by_cases h0 : k0 = k
    · simp [Data.get, h0] at h
    · simp only [Data.get, h0, if_false] at h
      have ih2 : List.map Prod.fst (Data.set rest k b) = List.map Prod.fst rest ++ [k] := ih h
      simp [Data.set, Data.keys, h0, ih2]

theorem get_step (A : Arith) (d : Data A.Num) (r : Result) (k : String) :
    (step A d r).get k =
      if key r = k then
        some { dbIds := (Data.getOrFresh A d k).dbIds ++ [r.dbId],
               volume := A.add (Data.getOrFresh A d k).volume (volumeValue A r) }
      else d.get k := by
  unfold step
  by_cases hk : key r = k
  · subst hk
    cases hg : Data.get d (key r) with
    | none => simp [Data.get_modify, Data.get_set, hg, Data.getOrFresh]
    | some b => simp [Data.get_modify, hg, Data.getOrFresh]
  · simp only [Data.get_modify, hk, if_false]
    split_ifs with h1
    · simp [Data.get_set, hk]
    · rfl

theorem keys_step_nodup (A : Arith) (d : Data A.Num) (r : Result) (h : d.keys.Nodup) :
    (step A d r).keys.Nodup := by
  unfold step
  simp only [Data.keys_modify]
  cases hg : Data.get d (key r) with
  | none =>
    have hn : key r ∉ d.keys := by
      rw [Data.mem_keys_iff, hg]; simp
    simp only [Option.isNone_none, if_true]
    rw [Data.keys_set_of_get_none d _ _ hg]
    exact List.Nodup.append h (List.nodup_singleton _) (by simpa using hn)
  | some b => simpa using h

theorem get_extractFrom (A : Arith) (rs : List Result) (d : Data A.Num) (k : String) :
    (extractFrom A d rs).get k =
      if recordsOf k rs = [] then d.get k
      else some { dbIds := (Data.getOrFresh A d k).dbIds ++ (recordsOf k rs).map Result.dbId,
                  volume := accumulate A (Data.getOrFresh A d k).volume (recordsOf k rs) } := by
  induction rs generalizing d with
  | nil => simp [extractFrom, recordsOf]
  | cons r rs ih =>
    have hcons : extractFrom A d (r :: rs) = extractFrom A (step A d r) rs := rfl
    rw [hcons, ih (step A d r)]
    by_cases hk : key r = k
    · have hrec : recordsOf k (r :: rs) = r :: recordsOf k rs := by
        simp [recordsOf, hk]
      have hfresh : Data.getOrFresh A (step A d r) k =
          { dbIds := (Data.getOrFresh A d k).dbIds ++ [r.dbId],
            volume := A.add (Data.getOrFresh A d k).volume (volumeValue A r) } := by
        simp [Data.getOrFresh, get_step, hk]
      rw [hrec, hfresh, get_step]
      by_cases he : recordsOf k rs = []
      · simp [he, hk, accumulate]
      · simp [he, accumulate]
    · have hrec : recordsOf k (r :: rs) = recordsOf k rs := by
        simp [recordsOf, hk]
      have hfresh : Data.getOrFresh A (step A d r) k = Data.getOrFresh A d k := by
        simp [Data.getOrFresh, get_step, hk]
      rw [hrec, hfresh, get_step]
      simp [hk]

theorem keys_extractFrom_nodup (A : Arith) (rs : List Result) (d : Data A.Num)
    (h : d.keys.Nodup) : (extractFrom A d rs).keys.Nodup := by
  induction rs generalizing d with
  | nil => exact h
  | cons r rs ih => exact ih (step A d r) (keys_step_nodup A d r h)

theorem get_extractData (A : Arith) (rs : List Result) (k : String) :
    (extractData A rs).get k =
      if recordsOf k rs = [] then none
      else some { dbIds := (recordsOf k rs).map Result.dbId,
                  volume := accumulate A A.zero (recordsOf k rs) } := by
  have h := get_extractFrom A rs [] k
  simpa [extractData, Data.getOrFresh, Data.get] using h

/-! ## Evaluation in the arithmetic without rounding -/

theorem parseFloat_decimal (s : String) (d : Decimal)
    (hinf : "Infinity".data.isPrefixOf (signedRest s).2 = false)
    (hdec : parseDecimal s = some d) : parseFloat s = .fin d.value := by
  simp [parseFloat, hinf, hdec]

theorem volumeValue_exact (r : Result) (s : String) (q : ℚ)
    (harg : volumeArgument r = some s) (hparse : parseFloat s = .fin q) (hq : q ≠ 0) :
    volumeValue exactArith r = ExactNum.fin q := by
  simp [volumeValue, exactArith, harg, hparse, ExactNum.truthy, hq]

theorem volumeValue_exact_none (r : Result) (harg : volumeArgument r = none) :
    volumeValue exactArith r = ExactNum.fin 0 := by
  simp [volumeValue, exactArith, harg, ExactNum.truthy]

theorem exampleRecords_keys :
    key ⟨1, [⟨"Family Name", "Wall"⟩, ⟨"Type Name", "Basic"⟩, ⟨"Volume", "2.5"⟩]⟩ = "Wall|Basic"
    ∧ key ⟨2, [⟨"Family", "Wall"⟩, ⟨"Type", "Basic"⟩, ⟨"Volume", "1.5"⟩]⟩ = "Wall|Basic" := by
  decide

theorem exampleRecords_generic (A : Arith) :
    extractData A exampleRecords =
      [("Wall|Basic", ⟨[1, 2], A.add (A.add A.zero
          (volumeValue A ⟨1, [⟨"Family Name", "Wall"⟩, ⟨"Type Name", "Basic"⟩, ⟨"Volume", "2.5"⟩]⟩))
          (volumeValue A ⟨2, [⟨"Family", "Wall"⟩, ⟨"Type", "Basic"⟩, ⟨"Volume", "1.5"⟩]⟩)⟩)] := by
  simp only [exampleRecords, extractData, extractFrom, List.foldl, step, exampleRecords_keys.1,
    exampleRecords_keys.2]
  simp [Data.get, Data.set, Data.modify]

theorem exampleRecords_eval :
    extractData exactArith exampleRecords = [("Wall|Basic", ⟨[1, 2], ExactNum.fin 4⟩)] := by
  have p1 : parseFloat "2.5" = .fin (5 / 2) := by
    rw [parseFloat_decimal "2.5" ⟨false, 25, -1⟩ (by decide) (by decide)]
    simp [Decimal.value]
    norm_num
  have p2 : parseFloat "1.5" = .fin (3 / 2) := by
    rw [parseFloat_decimal "1.5" ⟨false, 15, -1⟩ (by decide) (by decide)]
    simp [Decimal.value]
    norm_num
  have v1 := volumeValue_exact
    ⟨1, [⟨"Family Name", "Wall"⟩, ⟨"Type Name", "Basic"⟩, ⟨"Volume", "2.5"⟩]⟩ "2.5" (5 / 2)
    (by decide) p1 (by norm_num)
  have v2 := volumeValue_exact
    ⟨2, [⟨"Family", "Wall"⟩, ⟨"Type", "Basic"⟩, ⟨"Volume", "1.5"⟩]⟩ "1.5" (3 / 2)
    (by decide) p2 (by norm_num)
  rw [exampleRecords_generic, v1, v2]
  simp [exactArith, ExactNum.add]
  norm_num

theorem infiniteVolume_eval :
    extractData exactArith [infiniteVolumeRecord]
      = [("Wall|Basic", ⟨[9], ExactNum.posInf⟩)] := by
  have k1 : key ⟨9, [⟨"Family", "Wall"⟩, ⟨"Type", "Basic"⟩, ⟨"Volume", "Infinity"⟩]⟩
      = "Wall|Basic" := by decide
  have p1 : parseFloat "Infinity" = .posInf := by decide
  have v1 : volumeValue exactArith
      ⟨9, [⟨"Family", "Wall"⟩, ⟨"Type", "Basic"⟩, ⟨"Volume", "Infinity"⟩]⟩ = ExactNum.posInf := by
    have harg : volumeArgument
        ⟨9, [⟨"Family", "Wall"⟩, ⟨"Type", "Basic"⟩, ⟨"Volume", "Infinity"⟩]⟩ = some "Infinity" := by
      decide
    simp [volumeValue, exactArith, harg, p1, ExactNum.truthy]
  simp only [infiniteVolumeRecord, extractData, extractFrom, List.foldl, step, k1, v1]
  simp [Data.get, Data.set, Data.modify, exactArith, ExactNum.add]

/-- C1: in every arithmetic, the bucket under a key holds exactly the dbIds of
the records that resolve to that key, in input order, and the volume values of
those records added in input order starting from `0`; a key no record resolves
to is absent; keys are not repeated.  The two example records give the single
bucket `Wall|Basic` with dbIds `[1, 2]` and the volume `(0 + v1) + v2`, which
is `4` for the volumes `2.5` and `1.5`; a volume reading `Infinity` gives an
infinite bucket volume. -/
theorem extractData_buckets :
    (∀ (A : Arith) (rs : List Result) (k : String),
      (extractData A rs).get k =
        if recordsOf k rs = [] then none
        else some { dbIds := (recordsOf k rs).map Result.dbId,
                    volume := (recordsOf k rs).foldl
                      (fun acc r => A.add acc (volumeValue A r)) A.zero })
    ∧ (∀ (A : Arith) (rs : List Result), (extractData A rs).keys.Nodup)
    ∧ (∀ A : Arith, extractData A exampleRecords =
        [("Wall|Basic", ⟨[1, 2], A.add (A.add A.zero
          (volumeValue A ⟨1, [⟨"Family Name", "Wall"⟩, ⟨"Type Name", "Basic"⟩, ⟨"Volume", "2.5"⟩]⟩))
          (volumeValue A ⟨2, [⟨"Family", "Wall"⟩, ⟨"Type", "Basic"⟩, ⟨"Volume", "1.5"⟩]⟩)⟩)])
    ∧ extractData exactArith exampleRecords = [("Wall|Basic", ⟨[1, 2], ExactNum.fin 4⟩)]
    ∧ extractData exactArith [infiniteVolumeRecord] = [("Wall|Basic", ⟨[9], ExactNum.posInf⟩)] := by
  refine ⟨?_, ?_, exampleRecords_generic, exampleRecords_eval, infiniteVolume_eval⟩
  · intro A rs k
    exact get_extractData A rs k
  · intro A rs
    exact keys_extractFrom_nodup A rs [] (by simp [Data.keys])

end QTO

namespace QTO

/-! ## Family and type of a record -/

theorem find_of_first (f : Property → Bool) (pre post : List Property) (p : Property)
    (hpre : ∀ q ∈ pre, f q = false) (hp : f p = true) :
    (pre ++ p :: post).find? f = some p := by
  induction pre with
  | nil => simp [List.find?, hp]
  | cons q qs ih =>
    have hq : f q = false := hpre q (by simp)
    have := ih (fun x hx => hpre x (by simp [hx]))
    simpa [List.find?, hq] using this

/-- C4 (as the code has it): the family of a record is the value of the first
property, in the order of the record, that is named `Family Name` or `Family`,
when that value is not empty, and `Unknown` when that value is empty; the type
is the value of the first property named `Type Name` or `Type`, when that value
is not empty, and `Unknown` when it is empty. -/
theorem familyName_typeName_first_alias (r : Result) :
    (∀ (pre post : List Property) (p : Property),
      r.properties = pre ++ p :: post →
      (∀ q ∈ pre, q.displayName ≠ "Family Name" ∧ q.displayName ≠ "Family") →
      (p.displayName = "Family Name" ∨ p.displayName = "Family") →
      (p.displayValue ≠ "" → familyName r = p.displayValue)
      ∧ (p.displayValue = "" → familyName r = "Unknown"))
    ∧ (∀ (pre post : List Property) (p : Property),
      r.properties = pre ++ p :: post →
      (∀ q ∈ pre, q.displayName ≠ "Type Name" ∧ q.displayName ≠ "Type") →
      (p.displayName = "Type Name" ∨ p.displayName = "Type") →
      (p.displayValue ≠ "" → typeName r = p.displayValue)
      ∧ (p.displayValue = "" → typeName r = "Unknown")) := by
  constructor
  · intro pre post p hsplit hpre hp
    have hfind : r.properties.find? isFamilyProp = some p := by
      rw [hsplit]
      apply find_of_first
      · intro q hq
        have := hpre q hq
        simp [isFamilyProp, this.1, this.2]
      · rcases hp with hp | hp <;> simp [isFamilyProp, hp]
    constructor
    · intro hval
      simp [familyName, hfind, orUnknown, hval]
    · intro hval
      simp [familyName, hfind, orUnknown, hval]
  · intro pre post p hsplit hpre hp
    have hfind : r.properties.find? isTypeProp = some p := by
      rw [hsplit]
      apply find_of_first
      · intro q hq
        have := hpre q hq
        simp [isTypeProp, this.1, this.2]
      · rcases hp with hp | hp <;> simp [isTypeProp, hp]
    constructor
    · intro hval
      simp [typeName, hfind, orUnknown, hval]
    · intro hval
      simp [typeName, hfind, orUnknown, hval]

/-- C4, instances.  In the record that lists `Family` = `Door` before
`Family Name` = `Wall` and `Type` = `Single` before `Type Name` = `Flush`, the
family is `Door` and the type is `Single`: the alias listed first wins.  In
the record whose `Family Name` and `Type Name` come first with empty values,
the family and the type are `Unknown`. -/
theorem familyName_typeName_first_alias_witness :
    familyName aliasOrderRecord = "Door" ∧ typeName aliasOrderRecord = "Single"
    ∧ familyName emptyValueRecord = "Unknown" ∧ typeName emptyValueRecord = "Unknown" :=
  ⟨((familyName_typeName_first_alias aliasOrderRecord).1 []
      [⟨"Family Name", "Wall"⟩, ⟨"Type", "Single"⟩, ⟨"Type Name", "Flush"⟩]
      ⟨"Family", "Door"⟩ rfl (by simp) (Or.inr rfl)).1 (by decide),
   ((familyName_typeName_first_alias aliasOrderRecord).2
      [⟨"Family", "Door"⟩, ⟨"Family Name", "Wall"⟩] [⟨"Type Name", "Flush"⟩]
      ⟨"Type", "Single"⟩ rfl (by decide) (Or.inr rfl)).1 (by decide),
   ((familyName_typeName_first_alias emptyValueRecord).1 []
      [⟨"Family", "Door"⟩, ⟨"Type Name", ""⟩, ⟨"Type", "Single"⟩]
      ⟨"Family Name", ""⟩ rfl (by simp) (Or.inl rfl)).2 rfl,
   ((familyName_typeName_first_alias emptyValueRecord).2
      [⟨"Family Name", ""⟩, ⟨"Family", "Door"⟩] [⟨"Type", "Single"⟩]
      ⟨"Type Name", ""⟩ rfl (by decide) (Or.inl rfl)).2 rfl⟩

/-- C4 fails as stated: a record that has both `Family Name` = `Wall` and
`Family` = `Door`, with `Family` listed first, gets the family `Door` (and the
type `Single` from `Type`, listed before `Type Name`); and a record whose
`Family Name` is the empty string gets the family `Unknown`. -/
theorem familyName_priority_counterexample :
    (⟨"Family Name", "Wall"⟩ ∈ aliasOrderRecord.properties
      ∧ ⟨"Family", "Door"⟩ ∈ aliasOrderRecord.properties
      ∧ familyName aliasOrderRecord = "Door"
      ∧ familyName aliasOrderRecord ≠ "Wall"
      ∧ typeName aliasOrderRecord = "Single"
      ∧ key aliasOrderRecord = "Door|Single")
    ∧ (⟨"Family Name", ""⟩ ∈ emptyValueRecord.properties
      ∧ familyName emptyValueRecord = "Unknown"
      ∧ key emptyValueRecord = "Unknown|Unknown") := by
  decide

/-! ## Order of the records -/

theorem perm_recordsOf {rs rs' : List Result} (h : rs.Perm rs') (k : String) :
    (recordsOf k rs).Perm (recordsOf k rs') :=
  h.filter _

theorem exactAdd_right_comm (z x y : ExactNum) :
    ExactNum.add (ExactNum.add z x) y = ExactNum.add (ExactNum.add z y) x := by
  cases z <;> cases x <;> cases y <;> simp [ExactNum.add, add_right_comm]

theorem accumulate_perm {l l' : List Result} (h : l.Perm l') (v : ExactNum) :
    accumulate exactArith v l = accumulate exactArith v l' := by
  unfold accumulate
  exact h.foldl_eq' (fun x _ y _ z => exactAdd_right_comm z _ _) v

/-- C5: in the arithmetic without rounding, permuting the records leaves the
set of keys unchanged and, under each key, the dbIds up to order and the volume. -/
theorem extractData_perm (rs rs' : List Result) (h : rs.Perm rs') :
    (∀ k, k ∈ (extractData exactArith rs).keys ↔ k ∈ (extractData exactArith rs').keys)
    ∧ (∀ k b b', (extractData exactArith rs).get k = some b →
        (extractData exactArith rs').get k = some b' →
        b.dbIds.Perm b'.dbIds ∧ b.volume = b'.volume) := by
  have hp := fun k => perm_recordsOf h k
  have hnil : ∀ k, recordsOf k rs = [] ↔ recordsOf k rs' = [] := by
    intro k
    constructor
    · intro h0
      have := hp k
      rw [h0] at this
      exact List.Perm.nil_eq this |>.symm
    · intro h0
      have := hp k
      rw [h0] at this
      exact List.Perm.eq_nil this
  constructor
  · intro k
    rw [Data.mem_keys_iff, Data.mem_keys_iff, get_extractData, get_extractData]
    by_cases h0 : recordsOf k rs = []
    · simp [h0, (hnil k).1 h0]
    · have h1 : recordsOf k rs' ≠ [] := fun h1 => h0 ((hnil k).2 h1)
      simp [h0, h1]
  · intro k b b' hb hb'
    rw [get_extractData] at hb hb'
    by_cases h0 : recordsOf k rs = []
    · simp [h0] at hb
    · have h1 : recordsOf k rs' ≠ [] := fun h1 => h0 ((hnil k).2 h1)
      simp only [h0, h1, if_false, Option.some.injEq] at hb hb'
      subst hb
      subst hb'
      exact ⟨(hp k).map _, accumulate_perm (hp k) _⟩

/-- C5, instance: the two example records in either order. -/
theorem extractData_perm_witness :
    exampleRecords.Perm exampleRecords.reverse
    ∧ (∀ k, k ∈ (extractData exactArith exampleRecords).keys
        ↔ k ∈ (extractData exactArith exampleRecords.reverse).keys)
    ∧ (∀ k b b', (extractData exactArith exampleRecords).get k = some b →
        (extractData exactArith exampleRecords.reverse).get k = some b' →
        b.dbIds.Perm b'.dbIds ∧ b.volume = b'.volume) :=
  ⟨(List.reverse_perm exampleRecords).symm,
   extractData_perm exampleRecords exampleRecords.reverse (List.reverse_perm exampleRecords).symm⟩

/-! ## Records with missing properties -/

theorem find_none_of_names (f : Property → Bool) (ps : List Property)
    (h : ∀ p ∈ ps, f p = false) : ps.find? f = none := by
  simpa [List.find?_eq_none] using h

theorem volumeValue_of_nan (A : Arith) (r : Result)
    (h : A.isNaN (A.parseFloat (volumeArgument r)) = true) : volumeValue A r = A.zero := by
  simp [volumeValue, A.nan_falsy _ h]

/-- C9: in every arithmetic, a record with none of the five queried
properties has the key `Unknown|Unknown`; processing it puts its dbId at the
end of that bucket (a fresh bucket with volume 0 when the key was absent),
keeps the volume of that bucket and leaves every other key as it was.  A
record whose volume property has a value that `parseFloat` reads as `NaN`
contributes 0: its dbId goes to its own bucket, whose volume is kept. -/
theorem step_missing_properties (A : Arith) (d : Data A.Num) (r : Result)
    (h : ∀ p ∈ r.properties, p.displayName ≠ "Family Name" ∧ p.displayName ≠ "Family" ∧
      p.displayName ≠ "Type Name" ∧ p.displayName ≠ "Type" ∧ p.displayName ≠ "Volume") :
    key r = "Unknown|Unknown"
    ∧ (step A d r).get "Unknown|Unknown" =
        some { dbIds := (Data.getOrFresh A d "Unknown|Unknown").dbIds ++ [r.dbId],
               volume := (Data.getOrFresh A d "Unknown|Unknown").volume }
    ∧ (∀ k, k ≠ "Unknown|Unknown" → (step A d r).get k = d.get k)
    ∧ (∀ (d1 : Data A.Num) (r1 : Result) (p : Property),
        r1.properties.find? isVolumeProp = some p →
        A.isNaN (A.parseFloat (some p.displayValue)) = true →
        volumeValue A r1 = A.zero
        ∧ (step A d1 r1).get (key r1) =
            some { dbIds := (Data.getOrFresh A d1 (key r1)).dbIds ++ [r1.dbId],
                   volume := (Data.getOrFresh A d1 (key r1)).volume }
        ∧ (∀ k, k ≠ key r1 → (step A d1 r1).get k = d1.get k)) := by
  have hf : r.properties.find? isFamilyProp = none :=
    find_none_of_names _ _ (fun p hp => by
      have := h p hp
      simp [isFamilyProp, this.1, this.2.1])
  have ht : r.properties.find? isTypeProp = none :=
    find_none_of_names _ _ (fun p hp => by
      have := h p hp
      simp [isTypeProp, this.2.2.1, this.2.2.2.1])
  have hv : r.properties.find? isVolumeProp = none :=
    find_none_of_names _ _ (fun p hp => by
      have := h p hp
      simp [isVolumeProp, this.2.2.2.2])
  have hkey : key r = "Unknown|Unknown" := by
    simp only [key, familyName, typeName, hf, ht, orUnknown]
    decide
  have hvol : volumeValue A r = A.zero := by
    apply volumeValue_of_nan
    simp only [volumeArgument, hv, Option.map_none']
    exact A.parseFloat_undefined
  refine ⟨hkey, ?_, ?_, ?_⟩
  · rw [get_step, hkey, hvol, A.add_zero]
    simp
  · intro k hk
    rw [get_step, hkey, if_neg (fun h0 => hk h0.symm)]
  · intro d1 r1 p hfind hparse
    have hvol1 : volumeValue A r1 = A.zero := by
      apply volumeValue_of_nan
      simp only [volumeArgument, hfind, Option.map_some']
      exact hparse
    refine ⟨hvol1, ?_, ?_⟩
    · rw [get_step, hvol1, A.add_zero]
      simp
    · intro k hk
      rw [get_step, if_neg (fun h0 => hk h0.symm)]

/-- C9, instance, in the arithmetic without rounding: a record with only a
`Comments` property, processed on the result of the two example records; and
a record whose volume reads `n/a`. -/
theorem step_missing_properties_witness :
    key bareRecord = "Unknown|Unknown"
    ∧ (step exactArith (extractData exactArith exampleRecords) bareRecord).get "Unknown|Unknown" =
        some { dbIds := (Data.getOrFresh exactArith (extractData exactArith exampleRecords)
                          "Unknown|Unknown").dbIds ++ [5],
               volume := (Data.getOrFresh exactArith (extractData exactArith exampleRecords)
                          "Unknown|Unknown").volume }
    ∧ (∀ k, k ≠ "Unknown|Unknown" →
        (step exactArith (extractData exactArith exampleRecords) bareRecord).get k
          = (extractData exactArith exampleRecords).get k)
    ∧ volumeValue exactArith textVolumeRecord = ExactNum.fin 0 := by
  have hw := step_missing_properties exactArith (extractData exactArith exampleRecords)
    bareRecord (by decide)
  have hp : exactArith.isNaN (exactArith.parseFloat (some "n/a")) = true := by
    have : parseFloat "n/a" = .nan := by decide
    simp [exactArith, this, ExactNum.isNaN]
  exact ⟨hw.1, hw.2.1, hw.2.2.1,
    (hw.2.2.2 [] textVolumeRecord ⟨"Volume", "n/a"⟩ (by decide) hp).1⟩

/-! ## Keys and pairs -/

theorem bar_split_unique (a b c d : List Char) (ha : '|' ∉ a) (hc : '|' ∉ c)
    (h : a ++ '|' :: b = c ++ '|' :: d) : a = c ∧ b = d := by
  induction a generalizing c with
  | nil =>
    cases c with
    | nil => simpa using h
    | cons y ys =>
      simp only [List.nil_append, List.cons_append, List.cons.injEq] at h
      exact absurd (by simp [← h.1]) hc
  | cons x xs ih =>
    cases c with
    | nil =>
      simp only [List.nil_append, List.cons_append, List.cons.injEq] at h
      exact absurd (by simp [h.1]) ha
    | cons y ys =>
      simp only [List.cons_append, List.cons.injEq] at h
      have hxs : '|' ∉ xs := fun hm => ha (List.mem_cons_of_mem _ hm)
      have hys : '|' ∉ ys := fun hm => hc (List.mem_cons_of_mem _ hm)
      obtain ⟨h1, h2⟩ := ih ys hxs hys h.2
      exact ⟨by rw [h.1, h1], h2⟩

theorem key_data (r : Result) :
    (key r).data = (familyName r).data ++ '|' :: (typeName r).data := by
  simp [key, String.data_append]

theorem key_eq_iff_of_no_bar (r1 r2 : Result)
    (h1 : '|' ∉ (familyName r1).data) (h2 : '|' ∉ (familyName r2).data) :
    key r1 = key r2 ↔ familyName r1 = familyName r2 ∧ typeName r1 = typeName r2 := by
  constructor
  · intro h
    have hd : (key r1).data = (key r2).data := by rw [h]
    rw [key_data, key_data] at hd
    obtain ⟨ha, hb⟩ := bar_split_unique _ _ _ _ h1 h2 hd
    exact ⟨String.ext ha, String.ext hb⟩
  · rintro ⟨hf, ht⟩
    simp [key, hf, ht]

theorem key_of_dbId_mem (A : Arith) (rs : List Result) (r : Result) (k : String)
    (b : Bucket A.Num) (hnd : (rs.map Result.dbId).Nodup) (hr : r ∈ rs)
    (hget : (extractData A rs).get k = some b) (hmem : r.dbId ∈ b.dbIds) : key r = k := by
  rw [get_extractData] at hget
  by_cases h0 : recordsOf k rs = []
  · simp [h0] at hget
  · simp only [h0, if_false, Option.some.injEq] at hget
    subst hget
    obtain ⟨r0, hr0, hid⟩ := List.mem_map.1 hmem
    have hr0' := List.mem_filter.1 hr0
    have heq : r0 = r := List.inj_on_of_nodup_map hnd hr0'.1 hr hid
    rw [← heq]
    simpa using hr0'.2

theorem sameBucket_iff_key (A : Arith) (rs : List Result) (r1 r2 : Result)
    (hnd : (rs.map Result.dbId).Nodup) (h1 : r1 ∈ rs) (h2 : r2 ∈ rs) :
    sameBucket A rs r1 r2 ↔ key r1 = key r2 := by
  constructor
  · rintro ⟨k, b, hget, hm1, hm2⟩
    rw [key_of_dbId_mem A rs r1 k b hnd h1 hget hm1,
      key_of_dbId_mem A rs r2 k b hnd h2 hget hm2]
  · intro hk
    have hr1 : r1 ∈ recordsOf (key r1) rs := by
      simp [recordsOf, h1]
    have hr2 : r2 ∈ recordsOf (key r1) rs := by
      simp [recordsOf, h2, hk]
    have hne : recordsOf (key r1) rs ≠ [] := List.ne_nil_of_mem hr1
    refine ⟨key r1, { dbIds := (recordsOf (key r1) rs).map Result.dbId,
                      volume := accumulate A A.zero (recordsOf (key r1) rs) }, ?_,
      List.mem_map_of_mem _ hr1, List.mem_map_of_mem _ hr2⟩
    rw [get_extractData, if_neg hne]

theorem barRecords_eval :
    extractData exactArith [barFamilyRecord, barTypeRecord]
      = [("A|B|C", ⟨[1, 2], ExactNum.fin 0⟩)] := by
  have k1 : key ⟨1, [⟨"Family", "A|B"⟩, ⟨"Type", "C"⟩]⟩ = "A|B|C" := by decide
  have k2 : key ⟨2, [⟨"Family", "A"⟩, ⟨"Type", "B|C"⟩]⟩ = "A|B|C" := by decide
  have v1 := volumeValue_exact_none ⟨1, [⟨"Family", "A|B"⟩, ⟨"Type", "C"⟩]⟩ (by decide)
  have v2 := volumeValue_exact_none ⟨2, [⟨"Family", "A"⟩, ⟨"Type", "B|C"⟩]⟩ (by decide)
  simp only [barFamilyRecord, barTypeRecord, extractData, extractFrom, List.foldl, step,
    k1, k2, v1, v2]
  simp [Data.get, Data.set, Data.modify, exactArith, ExactNum.add]

/-- C11 fails as stated: the record with family `A|B` and type `C` and the
record with family `A` and type `B|C` have different families and different
types, yet both get the key `A|B|C` and their dbIds share the one bucket. -/
theorem sameBucket_pair_counterexample :
    familyName barFamilyRecord = "A|B" ∧ typeName barFamilyRecord = "C"
    ∧ familyName barTypeRecord = "A" ∧ typeName barTypeRecord = "B|C"
    ∧ familyName barFamilyRecord ≠ familyName barTypeRecord
    ∧ typeName barFamilyRecord ≠ typeName barTypeRecord
    ∧ extractData exactArith [barFamilyRecord, barTypeRecord]
        = [("A|B|C", ⟨[1, 2], ExactNum.fin 0⟩)]
    ∧ sameBucket exactArith [barFamilyRecord, barTypeRecord] barFamilyRecord barTypeRecord := by
  refine ⟨by decide, by decide, by decide, by decide, by decide, by decide, barRecords_eval, ?_⟩
  refine ⟨"A|B|C", ⟨[1, 2], ExactNum.fin 0⟩, ?_, by decide, by decide⟩
  rw [barRecords_eval]
  simp [Data.get]

/-- C11 (as the code has it): in every arithmetic, among records with distinct
dbIds, two records share a bucket exactly when their keys `family|type` are
equal strings; equal families and equal types always share a bucket; and when
neither family contains the character `|`, two records share a bucket exactly
when their families are equal and their types are equal. -/
theorem sameBucket_iff (A : Arith) (rs : List Result) (r1 r2 : Result)
    (hnd : (rs.map Result.dbId).Nodup) (h1 : r1 ∈ rs) (h2 : r2 ∈ rs) :
    (sameBucket A rs r1 r2 ↔ key r1 = key r2)
    ∧ (familyName r1 = familyName r2 ∧ typeName r1 = typeName r2 → sameBucket A rs r1 r2)
    ∧ ('|' ∉ (familyName r1).data → '|' ∉ (familyName r2).data →
        (sameBucket A rs r1 r2 ↔ familyName r1 = familyName r2 ∧ typeName r1 = typeName r2)) := by
  have hkey := sameBucket_iff_key A rs r1 r2 hnd h1 h2
  refine ⟨hkey, ?_, ?_⟩
  · rintro ⟨hf, ht⟩
    exact hkey.2 (by simp [key, hf, ht])
  · intro hb1 hb2
    rw [hkey]
    exact key_eq_iff_of_no_bar r1 r2 hb1 hb2

/-- C11, instance: the two example records, `Wall` / `Basic` both. -/
theorem sameBucket_iff_witness :
    (exampleRecords.map Result.dbId).Nodup
    ∧ sameBucket exactArith exampleRecords
        ⟨1, [⟨"Family Name", "Wall"⟩, ⟨"Type Name", "Basic"⟩, ⟨"Volume", "2.5"⟩]⟩
        ⟨2, [⟨"Family", "Wall"⟩, ⟨"Type", "Basic"⟩, ⟨"Volume", "1.5"⟩]⟩ :=
  ⟨by decide,
   (sameBucket_iff exactArith exampleRecords
      ⟨1, [⟨"Family Name", "Wall"⟩, ⟨"Type Name", "Basic"⟩, ⟨"Volume", "2.5"⟩]⟩
      ⟨2, [⟨"Family", "Wall"⟩, ⟨"Type", "Basic"⟩, ⟨"Volume", "1.5"⟩]⟩
      (by decide) (by simp [exampleRecords]) (by simp [exampleRecords])).2.1
      ⟨by decide, by decide⟩⟩

end QTO

namespace Metadata

open QTO (Property)

/-! ## `applyMatrix` -/

/-- C10: on a vertex with numeric coordinates and a matrix of 16 elements,
`applyMatrix` returns the vertex whose coordinates are
`x*m[0] + y*m[4] + z*m[8] + m[12]`, `x*m[1] + y*m[5] + z*m[9] + m[13]` and
`x*m[2] + y*m[6] + z*m[10] + m[14]`; with the identity matrix it returns the
vertex itself.  The function builds a new object and assigns to neither argument. -/
theorem applyMatrix_formula :
    (∀ (x y z m0 m1 m2 m3 m4 m5 m6 m7 m8 m9 m10 m11 m12 m13 m14 m15 : ℚ),
      applyMatrix ⟨some x, some y, some z⟩
        ⟨[m0, m1, m2, m3, m4, m5, m6, m7, m8, m9, m10, m11, m12, m13, m14, m15]⟩ =
        ⟨some (x * m0 + y * m4 + z * m8 + m12),
         some (x * m1 + y * m5 + z * m9 + m13),
         some (x * m2 + y * m6 + z * m10 + m14)⟩)
    ∧ (∀ x y z : ℚ, applyMatrix ⟨some x, some y, some z⟩ identityMatrix
        = ⟨some x, some y, some z⟩) := by
  constructor
  · intro x y z m0 m1 m2 m3 m4 m5 m6 m7 m8 m9 m10 m11 m12 m13 m14 m15
    simp [applyMatrix, numAdd, numMul]
  · intro x y z
    simp [applyMatrix, numAdd, numMul, identityMatrix]

/-! ## Geometry resolution -/

theorem strideOr3_zero : strideOr3 (some 0) = 3 ∧ (resolveGeometry zeroStrideGeometry).stride = 3 := by
  decide

/-- C7: for a geometry whose declared packed stride, when there is one, is not
0 (the data model requires a stride of at least 3): an attribute-form position
array is used with stride 3 whatever the packed fields say; otherwise a packed
vertex buffer is used with its declared stride, or with stride 3 when none is
declared; otherwise there are no positions and the fragment leaves the state
as it was, so it pushes no face.  The indices are the standard index array if
present, else the packed index buffer if present, else none, whichever the
source of the positions. -/
theorem resolveGeometry_spec (g : Geometry) (hstride : ∀ n, g.vbstride = some n → n ≠ 0) :
    (∀ p, g.position = some p →
      (resolveGeometry g).positions = some p ∧ (resolveGeometry g).stride = 3)
    ∧ (∀ v, g.position = none → g.vb = some v →
        (resolveGeometry g).positions = some v
        ∧ (∀ n, g.vbstride = some n → (resolveGeometry g).stride = n)
        ∧ (g.vbstride = none → (resolveGeometry g).stride = 3))
    ∧ (g.position = none → g.vb = none →
        (resolveGeometry g).positions = none
        ∧ ∀ (props : Option Props) (st : State) (rp : RenderProxy),
            geometryOf rp = some g → processFragment props st (some rp) = st)
    ∧ (∀ i, g.index = some i → (resolveGeometry g).indices = some i)
    ∧ (∀ i, g.index = none → g.ib = some i → (resolveGeometry g).indices = some i)
    ∧ (g.index = none → g.ib = none → (resolveGeometry g).indices = none) := by
  refine ⟨?_, ?_, ?_, ?_, ?_, ?_⟩
  · intro p hp
    simp [resolveGeometry, hp]
  · intro v hp hv
    refine ⟨by simp [resolveGeometry, hp, hv], ?_, ?_⟩
    · intro n hn
      simp [resolveGeometry, hp, hv, hn, strideOr3, hstride n hn]
    · intro hn
      simp [resolveGeometry, hp, hv, hn, strideOr3]
  · intro hp hv
    have hpos : (resolveGeometry g).positions = none := by
      simp [resolveGeometry, hp, hv]
    refine ⟨hpos, ?_⟩
    intro props st rp hg
    simp [processFragment, hg, hpos]
  · intro i hi
    simp [resolveGeometry, hi]
  · intro i hi hib
    simp [resolveGeometry, hi, hib]
  · intro hi hib
    simp [resolveGeometry, hi, hib]

/-- C7, instances: a geometry that has both an attribute-form position array
and a packed vertex buffer declaring the stride 6 resolves to the attribute
array with stride 3 and the packed index buffer; a geometry with only the
packed buffers resolves to the packed vertex buffer with stride 6. -/
theorem resolveGeometry_spec_witness :
    (resolveGeometry bothFormsGeometry).positions = some [0, 0, 0]
    ∧ (resolveGeometry bothFormsGeometry).stride = 3
    ∧ (resolveGeometry bothFormsGeometry).indices = some [0]
    ∧ (resolveGeometry packedGeometry).positions = some [1, 1, 1, 1, 1, 1]
    ∧ (resolveGeometry packedGeometry).stride = 6 :=
  ⟨((resolveGeometry_spec bothFormsGeometry (by decide)).1 [0, 0, 0] rfl).1,
   ((resolveGeometry_spec bothFormsGeometry (by decide)).1 [0, 0, 0] rfl).2,
   (resolveGeometry_spec bothFormsGeometry (by decide)).2.2.2.2.1 [0] rfl rfl,
   ((resolveGeometry_spec packedGeometry (by decide)).2.1 [1, 1, 1, 1, 1, 1] rfl rfl).1,
   ((resolveGeometry_spec packedGeometry (by decide)).2.1 [1, 1, 1, 1, 1, 1] rfl rfl).2.1 6 rfl⟩

/-! ## Material resolution -/

theorem includes_iff_infix (s pat : List Char) : includes s pat = true ↔ pat <:+: s := by
  induction s with
  | nil => simp [includes, List.isPrefixOf_iff_prefix]
  | cons c cs ih =>
    simp only [includes, Bool.or_eq_true, List.isPrefixOf_iff_prefix, ih]
    exact List.infix_cons_iff.symm

theorem isMaterialProp_iff (p : Property) : isMaterialProp p = true ↔ namesMaterial p := by
  unfold isMaterialProp namesMaterial
  rw [Bool.and_eq_true, includes_iff_infix]
  constructor
  · exact fun h => h.2
  · intro h
    refine ⟨?_, h⟩
    have hne : p.displayName ≠ "" := by
      intro h0
      rw [h0] at h
      revert h
      decide
    simpa using hne

theorem resolveName_fallback (material : Option Material) (ps : List Property) (p : Property)
    (hname : genericName material) (hfind : ps.find? isMaterialProp = some p) :
    resolveName material (some ⟨some ps⟩) = some p.displayValue := by
  have hgen : isGeneric (materialName material) = true := by
    cases material with
    | none => rfl
    | some m =>
      cases hn : m.name with
      | none => simp [materialName, hn, isGeneric]
      | some n =>
        simp only [genericName, hn] at hname
        rcases hname with h0 | h0
        · simp [materialName, hn, isGeneric, h0]
        · have : startsWith n "Unnamed" = true := by
            simpa [startsWith, List.isPrefixOf_iff_prefix] using h0
          simp [materialName, hn, isGeneric, this]
  simp [resolveName, hgen, propertiesOf, hfind]

theorem find_of_split (f : Property → Bool) (pre post : List Property) (p : Property)
    (hpre : ∀ q ∈ pre, f q = false) (hp : f p = true) :
    (pre ++ p :: post).find? f = some p := by
  induction pre with
  | nil => simp [List.find?, hp]
  | cons q qs ih =>
    have hq : f q = false := hpre q (by simp)
    have := ih (fun x hx => hpre x (by simp [hx]))
    simpa [List.find?, hq] using this

/-- C8 fails as stated: without a material object and with a material
property whose value is the empty string, the label is `Unnamed Material`,
not that value. -/
theorem materialInfo_empty_value_counterexample :
    namesMaterial ⟨"Material", ""⟩
    ∧ materialInfo none (some ⟨some [⟨"Material", ""⟩]⟩) = "Unnamed Material"
    ∧ materialInfo none (some ⟨some [⟨"Material", ""⟩]⟩) ≠ "" := by
  refine ⟨?_, by decide, by decide⟩
  rw [← isMaterialProp_iff]
  decide

/-- C8 (as the code has it): when the material name is missing, empty or
starts with `Unnamed`, and `p` is the first property in list order whose name
contains `material` (letter case ignored), the label starts with the value of
`p`; without a material object the label is exactly that value when the value
is not empty, and `Unnamed Material` when it is empty. -/
theorem materialInfo_property_fallback (material : Option Material)
    (pre post : List Property) (p : Property)
    (hname : genericName material)
    (hpre : ∀ q ∈ pre, ¬ namesMaterial q) (hp : namesMaterial p) :
    p.displayValue.data <+: (materialInfo material (some ⟨some (pre ++ p :: post)⟩)).data
    ∧ (material = none → p.displayValue ≠ "" →
        materialInfo material (some ⟨some (pre ++ p :: post)⟩) = p.displayValue)
    ∧ (material = none → p.displayValue = "" →
        materialInfo material (some ⟨some (pre ++ p :: post)⟩) = "Unnamed Material") := by
  have hfind : (pre ++ p :: post).find? isMaterialProp = some p := by
    apply find_of_split
    · intro q hq
      have := hpre q hq
      rw [← isMaterialProp_iff] at this
      simpa using this
    · exact (isMaterialProp_iff p).2 hp
  have hres := resolveName_fallback material _ p hname hfind
  by_cases hval : p.displayValue = ""
  · refine ⟨?_, fun _ h => absurd hval h, ?_⟩
    · rw [hval]
      exact List.nil_prefix
    · intro hm _
      subst hm
      simp [materialInfo, hres, noName, hval]
  · have hno : noName (some p.displayValue) = false := by
      simp [noName, hval]
    refine ⟨?_, ?_, fun _ h => absurd h hval⟩
    · cases material with
      | none =>
        simp [materialInfo, hres, hno]
      | some m =>
        simp only [materialInfo, hres, hno]
        cases m.color <;> simp [String.data_append, List.append_assoc]
    · intro hm _
      subst hm
      simp [materialInfo, hres, hno]

/-- C8, instance: the name `Unnamed_42` with the property `Material Type` =
`Concrete` after a property `Name`; the label starts with `Concrete`. -/
theorem materialInfo_property_fallback_witness :
    "Concrete".data <+:
      (materialInfo (some unnamed42)
        (some ⟨some ([⟨"Name", "Wall 1"⟩] ++ ⟨"Material Type", "Concrete"⟩ :: [])⟩)).data
    ∧ materialInfo none
        (some ⟨some ([⟨"Name", "Wall 1"⟩] ++ ⟨"Material Type", "Concrete"⟩ :: [])⟩) = "Concrete" := by
  have hpre : ∀ q ∈ [(⟨"Name", "Wall 1"⟩ : Property)], ¬ namesMaterial q := by
    intro q hq
    rw [← isMaterialProp_iff]
    rw [List.mem_singleton] at hq
    subst hq
    decide
  have hp : namesMaterial ⟨"Material Type", "Concrete"⟩ := by
    rw [← isMaterialProp_iff]
    decide
  exact ⟨(materialInfo_property_fallback (some unnamed42) [⟨"Name", "Wall 1"⟩] []
      ⟨"Material Type", "Concrete"⟩ (Or.inr (by decide)) hpre hp).1,
    (materialInfo_property_fallback none [⟨"Name", "Wall 1"⟩] []
      ⟨"Material Type", "Concrete"⟩ trivial hpre hp).2.1 rfl (by decide)⟩

/-! ## The face loops -/

theorem forLoop_eq_map {α : Type} (len step : Nat) (body : Nat → α) (hstep : 0 < step) :
    ∀ (fuel i : Nat), len ≤ i + fuel →
      forLoop len step body fuel i =
        (List.range ((len - i + step - 1) / step)).map (fun j => body (i + j * step)) := by
  intro fuel
  induction fuel with
  | zero =>
    intro i hi
    have h0 : (len - i + step - 1) / step = 0 := by
      apply Nat.div_eq_of_lt
      omega
    simp [forLoop, h0]
  | succ fuel ih =>
    intro i hi
    by_cases hlt : i < len
    · have hnum : len - i + step - 1 = (len - (i + step) + step - 1) + step
          ∨ (len - i + step - 1 = (len - i - 1) + step ∧ len - i - 1 < step
              ∧ len - (i + step) + step - 1 < step) := by
        by_cases hge : step ≤ len - i
        · left; omega
        · right; omega
      have hcount : (len - i + step - 1) / step = (len - (i + step) + step - 1) / step + 1 := by
        rcases hnum with h | ⟨h1, h2, h3⟩
        · rw [h, Nat.add_div_right _ hstep]
        · rw [h1, Nat.add_div_right _ hstep, Nat.div_eq_of_lt h2, Nat.div_eq_of_lt h3]
      rw [forLoop, if_pos hlt, ih (i + step) (by omega), hcount, List.range_succ_eq_map]
      simp only [List.map_cons, List.map_map, Nat.zero_mul, Nat.add_zero]
      congr 1
      apply List.map_congr_left
      intro j _
      simp only [Function.comp, Nat.succ_eq_add_one]
      congr 1
      ring
    · have h0 : (len - i + step - 1) / step = 0 := by
        apply Nat.div_eq_of_lt
        omega
      simp [forLoop, hlt, h0]

theorem length_forLoop {α : Type} (len step : Nat) (body : Nat → α) (hstep : 0 < step) :
    (forLoop len step body len 0).length = (len + step - 1) / step := by
  rw [forLoop_eq_map len step body hstep len 0 (by omega)]
  simp

theorem forLoop_of_dvd {α : Type} (len step : Nat) (body : Nat → α) (hstep : 0 < step)
    (hdvd : step ∣ len) :
    forLoop len step body len 0 = (List.range (len / step)).map (fun j => body (j * step)) := by
  rw [forLoop_eq_map len step body hstep len 0 (by omega)]
  obtain ⟨c, rfl⟩ := hdvd
  have h1 : (step * c - 0 + step - 1) / step = c := by
    have : step * c - 0 + step - 1 = step - 1 + step * c := by omega
    rw [this, Nat.add_mul_div_left _ _ hstep, Nat.div_eq_of_lt (by omega)]
    simp
  rw [h1, Nat.mul_div_cancel_left _ hstep]
  simp

theorem mathRound_eq (q : ℚ) (z : Int) (h1 : (z : ℚ) ≤ q + 1 / 2) (h2 : q + 1 / 2 < z + 1) :
    mathRound q = z :=
  Int.floor_eq_iff.2 ⟨h1, h2⟩

theorem mathRound_natCast (n : Nat) : mathRound (n : ℚ) = (n : Int) := by
  apply mathRound_eq
  · push_cast; linarith
  · push_cast; linarith

theorem resolveGeometry_stride_pos (g : Geometry) : 0 < (resolveGeometry g).stride := by
  simp only [resolveGeometry]
  split_ifs
  · unfold strideOr3
    split
    · split_ifs <;> omega
    · omega
  · omega

/-! ## Face numbering -/

theorem oneTo_add (n c : Nat) :
    oneTo (n + c) = oneTo n ++ (List.range c).map (fun j => ((n + j : Nat) : Int) + 1) := by
  unfold oneTo
  rw [List.range_add, List.map_append, List.map_map]
  rfl

theorem indexedFaces_faceIndex (positions : List ℚ) (stride : Nat) (indices : List Nat)
    (m : Matrix4) (material : String) (n : Nat) (hdvd : 3 ∣ indices.length) :
    (indexedFaces positions stride indices m material
        ((n : ℚ) + (indices.length : ℚ) / 3) ((indices.length : ℚ) / 3)).map Face.faceIndex
      = (List.range (indices.length / 3)).map (fun j => ((n + j : Nat) : Int) + 1) := by
  unfold indexedFaces
  rw [forLoop_of_dvd _ 3 _ (by omega) hdvd, List.map_map]
  apply List.map_congr_left
  intro j _
  simp only [Function.comp, indexedFace]
  have : (n : ℚ) + (indices.length : ℚ) / 3 - (indices.length : ℚ) / 3
      + ((j * 3 : Nat) : ℚ) / 3 + 1 = ((n + j + 1 : Nat) : ℚ) := by
    push_cast
    ring
  rw [this, mathRound_natCast]
  push_cast
  ring

theorem nonIndexedFaces_faceIndex (positions : List ℚ) (stride : Nat)
    (m : Matrix4) (material : String) (n : Nat) (hs : 0 < stride)
    (hdvd : stride * 3 ∣ positions.length) :
    (nonIndexedFaces positions stride m material
        ((n : ℚ) + (positions.length : ℚ) / ((stride : ℚ) * 3))
        ((positions.length : ℚ) / ((stride : ℚ) * 3))).map Face.faceIndex
      = (List.range (positions.length / (stride * 3))).map
          (fun j => ((n + j : Nat) : Int) + 1) := by
  unfold nonIndexedFaces
  rw [forLoop_of_dvd _ (stride * 3) _ (by omega) hdvd, List.map_map]
  apply List.map_congr_left
  intro j _
  simp only [Function.comp, nonIndexedFace]
  have hs0 : (stride : ℚ) ≠ 0 := by
    exact_mod_cast (Nat.pos_iff_ne_zero.1 hs)
  have : (n : ℚ) + (positions.length : ℚ) / ((stride : ℚ) * 3)
      - (positions.length : ℚ) / ((stride : ℚ) * 3)
      + ((j * (stride * 3) : Nat) : ℚ) / ((stride : ℚ) * 3) + 1 = ((n + j + 1 : Nat) : ℚ) := by
    push_cast
    field_simp
  rw [this, mathRound_natCast]
  push_cast
  ring

theorem length_indexedFaces_of_dvd (positions : List ℚ) (stride : Nat) (indices : List Nat)
    (m : Matrix4) (material : String) (t c : ℚ) (hdvd : 3 ∣ indices.length) :
    (indexedFaces positions stride indices m material t c).length = indices.length / 3 := by
  unfold indexedFaces
  rw [forLoop_of_dvd _ 3 _ (by omega) hdvd]
  simp

theorem length_nonIndexedFaces_of_dvd (positions : List ℚ) (stride : Nat)
    (m : Matrix4) (material : String) (t c : ℚ) (hs : 0 < stride)
    (hdvd : stride * 3 ∣ positions.length) :
    (nonIndexedFaces positions stride m material t c).length
      = positions.length / (stride * 3) := by
  unfold nonIndexedFaces
  rw [forLoop_of_dvd _ (stride * 3) _ (by omega) hdvd]
  simp

theorem numbered_append (st : State) (faces : List Face) (c : Nat) (q : ℚ)
    (hst : Numbered st) (hlen : faces.length = c) (hq : q = (c : ℚ))
    (hidx : faces.map Face.faceIndex
      = (List.range c).map (fun j => ((st.allGeometryData.length + j : Nat) : Int) + 1)) :
    Numbered { totalFaces := st.totalFaces + q, allGeometryData := st.allGeometryData ++ faces } := by
  constructor
  · simp only [List.length_append, hlen, hst.1, hq]
    push_cast
    rfl
  · simp only [List.map_append, List.length_append, hlen, hst.2, hidx, oneTo_add]

theorem numbered_processFragment (props : Option Props) (st : State)
    (proxy : Option RenderProxy) (hst : Numbered st) (hw : wholeTriangles proxy = true) :
    Numbered (processFragment props st proxy) := by
  cases proxy with
  | none => exact hst
  | some rp =>
    simp only [processFragment]
    simp only [wholeTriangles] at hw
    cases hg : geometryOf rp with
    | none => exact hst
    | some g =>
      simp only [hg] at hw ⊢
      cases hp : (resolveGeometry g).positions with
      | none => exact hst
      | some positions =>
        cases hi : (resolveGeometry g).indices with
        | some indices =>
          simp only [hp, hi, decide_eq_true_eq] at hw ⊢
          have hq : (indices.length : ℚ) / 3 = ((indices.length / 3 : Nat) : ℚ) := by
            rw [Nat.cast_div hw (by norm_num)]
            norm_num
          apply numbered_append st _ (indices.length / 3) _ hst
          · exact length_indexedFaces_of_dvd _ _ _ _ _ _ _ hw
          · exact hq
          · rw [hst.1]
            exact indexedFaces_faceIndex _ _ _ _ _ _ hw
        | none =>
          simp only [hp, hi, decide_eq_true_eq] at hw ⊢
          have hs := resolveGeometry_stride_pos g
          have hs0 : ((resolveGeometry g).stride : ℚ) ≠ 0 := by
            exact_mod_cast (Nat.pos_iff_ne_zero.1 hs)
          have hq : (positions.length : ℚ) / (((resolveGeometry g).stride : ℚ) * 3)
              = ((positions.length / ((resolveGeometry g).stride * 3) : Nat) : ℚ) := by
            rw [Nat.cast_div hw (by push_cast; positivity)]
            push_cast
            rfl
          apply numbered_append st _ (positions.length / ((resolveGeometry g).stride * 3)) _ hst
          · exact length_nonIndexedFaces_of_dvd _ _ _ _ _ _ hs hw
          · exact hq
          · rw [hst.1]
            exact nonIndexedFaces_faceIndex _ _ _ _ _ hs hw

theorem numbered_foldl (props : Option Props) (frags : List (Option RenderProxy)) :
    ∀ st : State, Numbered st → (∀ f ∈ frags, wholeTriangles f = true) →
      Numbered (frags.foldl (processFragment props) st) := by
  induction frags with
  | nil => intro st hst _; exact hst
  | cons f fs ih =>
    intro st hst hw
    exact ih _ (numbered_processFragment props st f hst (hw f (by simp)))
      (fun x hx => hw x (by simp [hx]))

theorem processFragment_of_not_decodable (props : Option Props) (st : State)
    (proxy : Option RenderProxy) (h : hasDecodableGeometry proxy = false) :
    processFragment props st proxy = st := by
  cases proxy with
  | none => rfl
  | some rp =>
    simp only [processFragment]
    simp only [hasDecodableGeometry] at h
    cases hg : geometryOf rp with
    | none => rfl
    | some g =>
      simp only [hg] at h ⊢
      cases hp : (resolveGeometry g).positions with
      | none => rfl
      | some positions => simp [hp] at h

theorem foldl_filter_decodable (props : Option Props) (frags : List (Option RenderProxy)) :
    ∀ st : State, (frags.filter hasDecodableGeometry).foldl (processFragment props) st
      = frags.foldl (processFragment props) st := by
  induction frags with
  | nil => intro st; rfl
  | cons f fs ih =>
    intro st
    by_cases hf : hasDecodableGeometry f = true
    · simp only [List.filter_cons, hf, if_true, List.foldl_cons]
      exact ih _
    · have hf2 : hasDecodableGeometry f = false := by simpa using hf
      simp only [List.filter_cons, hf2, List.foldl_cons,
        processFragment_of_not_decodable props st f hf2]
      simpa using ih st

/-- C2: when every index array that is walked has a length that is a
multiple of 3 and every position array that is walked without indices has a
length that is a multiple of `stride * 3`, the faces of one extraction carry
the indices `1, 2, ..., n` in the order they were pushed, `totalFaces` ends as
`n`, and dropping the fragments without a render proxy, geometry or position
data from the list changes nothing. -/
theorem setupMetadata_faceIndex_contiguous (props : Option Props)
    (frags : List (Option RenderProxy)) (h : ∀ f ∈ frags, wholeTriangles f = true) :
    (setupMetadata props frags).allGeometryData.map Face.faceIndex
      = oneTo (setupMetadata props frags).allGeometryData.length
    ∧ (setupMetadata props frags).totalFaces
      = ((setupMetadata props frags).allGeometryData.length : ℚ)
    ∧ setupMetadata props (frags.filter hasDecodableGeometry) = setupMetadata props frags := by
  have hnum : Numbered (setupMetadata props frags) :=
    numbered_foldl props frags _ ⟨by simp, by simp [oneTo]⟩ h
  exact ⟨hnum.2, hnum.1, foldl_filter_decodable props frags _⟩

/-- C2, instance: an indexed fragment, a fragment without render proxy, one
without geometry, and a packed non-indexed fragment. -/
theorem setupMetadata_faceIndex_contiguous_witness :
    (∀ f ∈ exampleFragments, wholeTriangles f = true)
    ∧ (setupMetadata none exampleFragments).allGeometryData.map Face.faceIndex
      = oneTo (setupMetadata none exampleFragments).allGeometryData.length
    ∧ (setupMetadata none exampleFragments).totalFaces
      = ((setupMetadata none exampleFragments).allGeometryData.length : ℚ)
    ∧ setupMetadata none (exampleFragments.filter hasDecodableGeometry)
      = setupMetadata none exampleFragments :=
  ⟨by decide, setupMetadata_faceIndex_contiguous none exampleFragments (by decide)⟩

/-! ## Partial triples -/

theorem vertexAt_none (positions : List ℚ) : vertexAt positions none = ⟨none, none, none⟩ := rfl

theorem applyMatrix_nan (m : Matrix4) : applyMatrix ⟨none, none, none⟩ m = ⟨none, none, none⟩ := by
  simp [applyMatrix, numMul, numAdd]

/-- C3 (what the code does): the indexed loop pushes `(len + 2) / 3` faces and
the non-indexed loop `(len + stride*3 - 1) / (stride*3)` faces, one more than
the whole triangles when the length is not a multiple.  On an index array of
four entries two faces are pushed, the second one built from the reads
`indices[4]` and `indices[5]` past the end, and `totalFaces` ends as `4/3`;
a following fragment with one triangle then gets the face index 2 again. -/
theorem indexedFaces_leftover_index :
    (∀ (positions : List ℚ) (stride : Nat) (indices : List Nat) (m : Matrix4)
        (material : String) (t c : ℚ),
        (indexedFaces positions stride indices m material t c).length
          = (indices.length + 2) / 3)
    ∧ (∀ (positions : List ℚ) (stride : Nat) (m : Matrix4) (material : String) (t c : ℚ),
        0 < stride →
        (nonIndexedFaces positions stride m material t c).length
          = (positions.length + stride * 3 - 1) / (stride * 3))
    ∧ (setupMetadata none [some leftoverIndexFragment]).allGeometryData.map Face.vertices
        = [[⟨some 0, some 0, some 0⟩, ⟨some 1, some 0, some 0⟩, ⟨some 0, some 1, some 0⟩],
           [⟨some 0, some 0, some 0⟩, ⟨none, none, none⟩, ⟨none, none, none⟩]]
    ∧ (setupMetadata none [some leftoverIndexFragment]).totalFaces = 4 / 3
    ∧ (setupMetadata none
        [some leftoverIndexFragment, some oneTriangleFragment]).allGeometryData.map Face.faceIndex
        = [1, 2, 2] := by
  refine ⟨?_, ?_, ?_, ?_, ?_⟩
  · intro positions stride indices m material t c
    unfold indexedFaces
    rw [length_forLoop _ 3 _ (by omega)]
    rfl
  · intro positions stride m material t c hs
    unfold nonIndexedFaces
    rw [length_forLoop _ (stride * 3) _ (by omega)]
  · simp [setupMetadata, processFragment, leftoverIndexFragment, geometryOf, resolveGeometry,
      indexedFaces, forLoop, indexedFace, vertexAt, readAt, applyMatrix, numMul, numAdd,
      identityMatrix]
  · simp [setupMetadata, processFragment, leftoverIndexFragment, geometryOf, resolveGeometry]
  · have r1 : mathRound (1 : ℚ) = 1 := by
      apply mathRound_eq <;> norm_num
    have r2 : mathRound (2 : ℚ) = 2 := by
      apply mathRound_eq <;> norm_num
    have r3 : mathRound (7 / 3 : ℚ) = 2 := by
      apply mathRound_eq <;> norm_num
    simp [setupMetadata, processFragment, leftoverIndexFragment, oneTriangleFragment,
      geometryOf, resolveGeometry, indexedFaces, forLoop, indexedFace]
    norm_num [r1, r2, r3]

/-! ## Strided reads -/

theorem getElem?_eq_some_getD (l : List ℚ) (i : Nat) (h : i < l.length) :
    l[i]? = some (l.getD i 0) := by
  simp [List.getD, List.getElem?_eq_getElem h]

theorem vertexAt_in_range (positions : List ℚ) (stride k : Nat)
    (h : k * stride + 2 < positions.length) :
    vertexAt positions (some (k * stride)) = blockVertex positions stride k := by
  simp only [vertexAt, readAt, blockVertex, Option.map_some', Option.some_bind]
  rw [getElem?_eq_some_getD _ _ (by omega), getElem?_eq_some_getD _ _ (by omega),
    getElem?_eq_some_getD _ _ h]

theorem vertexAt_index_in_range (positions : List ℚ) (stride : Nat) (indices : List Nat)
    (hr : ∀ k ∈ indices, k * stride + 2 < positions.length) (i : Nat) (hi : i < indices.length) :
    vertexAt positions (indices[i]?.map (fun n => n * stride))
      = blockVertex positions stride (indices.getD i 0) := by
  have hget : indices[i]? = some (indices.getD i 0) := by
    simp [List.getD, List.getElem?_eq_getElem hi]
  have hmem : indices.getD i 0 ∈ indices := by
    have hval : indices.getD i 0 = indices[i] := by
      simp [List.getD, List.getElem?_eq_getElem hi]
    rw [hval]
    exact List.getElem_mem hi
  rw [hget, Option.map_some']
  exact vertexAt_in_range positions stride _ (hr _ hmem)

theorem vertexAt_congr (p q : List ℚ) (stride : Nat)
    (h : ∀ k d, d < 3 → p[k * stride + d]? = q[k * stride + d]?) (a : Option Nat) :
    vertexAt p (a.map (fun n => n * stride)) = vertexAt q (a.map (fun n => n * stride)) := by
  cases a with
  | none => rfl
  | some n =>
    have h0 := h n 0 (by omega)
    have h1 := h n 1 (by omega)
    have h2 := h n 2 (by omega)
    simp only [Nat.add_zero] at h0
    simp [vertexAt, readAt, h0, h1, h2]

/-- C6: for a stride of at least 3, an index array whose length is a multiple
of 3 and whose indices all address a whole block of the position array, the
`j`-th face has the three vertices `applyMatrix` of the first three fields of
the blocks named by `indices[3j]`, `indices[3j+1]`, `indices[3j+2]`, in that
order; and a position array that agrees on the first three fields of every
block gives the same list of faces. -/
theorem indexedFaces_strided (positions : List ℚ) (stride : Nat) (indices : List Nat)
    (m : Matrix4) (material : String) (t c : ℚ)
    (hs : 3 ≤ stride) (hdvd : 3 ∣ indices.length)
    (hr : ∀ k ∈ indices, k * stride + 2 < positions.length) :
    (indexedFaces positions stride indices m material t c).map Face.vertices
      = (List.range (indices.length / 3)).map (fun j =>
          [applyMatrix (blockVertex positions stride (indices.getD (3 * j) 0)) m,
           applyMatrix (blockVertex positions stride (indices.getD (3 * j + 1) 0)) m,
           applyMatrix (blockVertex positions stride (indices.getD (3 * j + 2) 0)) m])
    ∧ (∀ other : List ℚ,
        (∀ k d, d < 3 → other[k * stride + d]? = positions[k * stride + d]?) →
        indexedFaces other stride indices m material t c
          = indexedFaces positions stride indices m material t c) := by
  have _ := hs
  constructor
  · unfold indexedFaces
    rw [forLoop_of_dvd _ 3 _ (by omega) hdvd, List.map_map]
    apply List.map_congr_left
    intro j hj
    have hj2 : j < indices.length / 3 := List.mem_range.1 hj
    have hlen : j * 3 + 2 < indices.length := by
      obtain ⟨q, hq⟩ := hdvd
      rw [hq, Nat.mul_div_cancel_left _ (by omega : 0 < 3)] at hj2
      omega
    simp only [Function.comp, indexedFace]
    rw [vertexAt_index_in_range positions stride indices hr (j * 3) (by omega),
      vertexAt_index_in_range positions stride indices hr (j * 3 + 1) (by omega),
      vertexAt_index_in_range positions stride indices hr (j * 3 + 2) hlen,
      Nat.mul_comm j 3]
  · intro other hagree
    unfold indexedFaces
    have hbody : indexedFace other stride indices m material t c
        = indexedFace positions stride indices m material t c := by
      funext i
      simp only [indexedFace, vertexAt_congr other positions stride hagree]
    rw [hbody]

/-- C6, instance: stride 6 and the indices `[0, 1, 3]`; the face is made of
the first three fields of blocks 0, 1 and 3. -/
theorem indexedFaces_strided_witness :
    3 ≤ 6 ∧ 3 ∣ [0, 1, 3].length
    ∧ (∀ k ∈ [0, 1, 3], k * 6 + 2 < stride6Positions.length)
    ∧ (indexedFaces stride6Positions 6 [0, 1, 3] identityMatrix "m" 1 1).map Face.vertices
      = [[⟨some 0, some 0, some 0⟩, ⟨some 1, some 1, some 1⟩, ⟨some 0, some 2, some 0⟩]] := by
  have h := (indexedFaces_strided stride6Positions 6 [0, 1, 3] identityMatrix "m" 1 1
    (by decide) (by decide) (by decide)).1
  refine ⟨by decide, by decide, by decide, ?_⟩
  rw [h]
  simp [blockVertex, stride6Positions, applyMatrix, numMul, numAdd, identityMatrix,
    List.range_succ]

end Metadata
